import Mathlib

set_option maxHeartbeats 1000000

/-
Verification of the world save/load codec (Saver.save_map / Saver.load_map).

The embedding translates the byte-level serializer and deserializer into pure
Lean functions.  Machine integers are modelled as Int with an explicit signed
32-bit range check in packI32, mirroring struct.pack with format i; bytes are
Nat values below 256; 32-bit float samples are modelled by their 32-bit words
(struct.pack with format f is a bijection on bit patterns, and the codec never
computes with the sample values, only copies them).  Failures (struct.error,
ValueError, TypeError, IndexError) become an Err value.
-/

deriving instance DecidableEq for Except

namespace Saver

inductive Err where
  | truncated
  | badSignature
  | badTag
  | typeError
  | indexError
  | packRange
deriving DecidableEq

/-- Modelled from the spec: Point (model.Geometry is outside the provided
sources) is an ordered pair of integers with fields x and y, equality by the
pair; the spec gives it no sequence behaviour, so it is not subscriptable. -/
structure Point where
  x : Int
  y : Int
deriving DecidableEq

structure Structure where
  structure_type : Int
  position : Point
  points : List Point
deriving DecidableEq

structure Building where
  position : Point
  points : List Point
deriving DecidableEq

/-- Modelled from the spec: the noise-chunk mapping is keyed by a bare pair of
independent integers on the generation side, while the loader inserts keys
built with the structured Point type; a key is therefore one of the two
dynamic shapes. -/
inductive NoiseKey where
  | pair (a b : Int)
  | point (p : Point)
deriving DecidableEq

/-- Modelled from the spec: subscripting a noise-chunk key, as the saver does
with chunk coords index 0 and 1.  A bare pair supports it; the structured
Point type does not, which in Python raises TypeError. -/
def NoiseKey.item : NoiseKey → Except Err (Int × Int)
  | .pair a b => .ok (a, b)
  | .point _ => .error .typeError

/-- The world state walked by the codec.  Mappings are modelled as
insertion-ordered association lists, matching Python dict iteration order.
Ore kinds are carried as their small-integer tag values.  Noise grids hold
32-bit float words. -/
structure Map where
  seed : Int
  ores : List (Point × List (Nat × List Point))
  structures : List (Point × List Structure)
  buildings : List Building
  perlinChunks : List (NoiseKey × List (List Nat))
deriving DecidableEq

/-- Modelled from the spec: a freshly constructed world state (the Map
constructor is outside the provided sources) has the given seed and empty
collections, to be fully reconstructed by the loader. -/
def mEmpty (seed : Int) : Map := ⟨seed, [], [], [], []⟩

/- Primitive packing, little endian, as struct.pack with formats i, B, f. -/

def le4 (n : Nat) : List Nat :=
  [n % 256, n / 256 % 256, n / 65536 % 256, n / 16777216 % 256]

def deLE4 : List Nat → Nat
  | a :: b :: c :: d :: _ => a + 256 * b + 65536 * c + 16777216 * d
  | _ => 0

def toI32 (n : Nat) : Int :=
  if n < 2147483648 then (n : Int) else (n : Int) - 4294967296

def packI32 (x : Int) : Except Err (List Nat) :=
  if -2147483648 ≤ x ∧ x ≤ 2147483647 then .ok (le4 (x % 4294967296).toNat)
  else .error .packRange

def packB (b : Nat) : Except Err (List Nat) :=
  if b ≤ 255 then .ok [b] else .error .packRange

def ebind {α β : Type} (x : Except Err α) (f : α → Except Err β) : Except Err β :=
  match x with
  | .error e => .error e
  | .ok a => f a

/- Encoder: Saver.save_map, section by section, in source order.  The byte
sink is modelled by returning the written bytes; a raised exception becomes
an error result. -/

def encList {α : Type} (f : α → Except Err (List Nat)) : List α → Except Err (List Nat)
  | [] => .ok []
  | a :: rest => ebind (f a) fun b => ebind (encList f rest) fun bs => .ok (b ++ bs)

def encPoint (p : Point) : Except Err (List Nat) :=
  ebind (packI32 p.x) fun b1 => ebind (packI32 p.y) fun b2 => .ok (b1 ++ b2)

def encOreKind (kp : Nat × List Point) : Except Err (List Nat) :=
  ebind (packB kp.1) fun tb =>
  ebind (packI32 (kp.2.length : Int)) fun lb =>
  ebind (encList encPoint kp.2) fun pb => .ok (tb ++ lb ++ pb)

def encOreChunk (ck : Point × List (Nat × List Point)) : Except Err (List Nat) :=
  ebind (encPoint ck.1) fun cb =>
  ebind (packI32 (ck.2.length : Int)) fun lb =>
  ebind (encList encOreKind ck.2) fun kb => .ok (cb ++ lb ++ kb)

def encStructure (s : Structure) : Except Err (List Nat) :=
  ebind (packI32 s.structure_type) fun tb =>
  ebind (encPoint s.position) fun pb =>
  ebind (packI32 (s.points.length : Int)) fun lb =>
  ebind (encList encPoint s.points) fun fb => .ok (tb ++ pb ++ lb ++ fb)

def encStructChunk (ck : Point × List Structure) : Except Err (List Nat) :=
  ebind (encPoint ck.1) fun cb =>
  ebind (packI32 (ck.2.length : Int)) fun lb =>
  ebind (encList encStructure ck.2) fun sb => .ok (cb ++ lb ++ sb)

def encBuilding (b : Building) : Except Err (List Nat) :=
  ebind (encPoint b.position) fun pb =>
  ebind (packI32 (b.points.length : Int)) fun lb =>
  ebind (encList encPoint b.points) fun fb => .ok (pb ++ lb ++ fb)

/-- The saver noise-sample loop is literally: for row in chunk index 0, for
value in row, write value.  On an empty chunk, indexing raises IndexError.
Otherwise the loop iterates the elements of the FIRST ROW of the grid; each
such element is a float sample, and the inner for statement over a float
raises TypeError before anything is written.  Only an empty first row writes
nothing and succeeds. -/
def encNoiseSamples : List (List Nat) → Except Err (List Nat)
  | [] => .error .indexError
  | firstRow :: _ =>
    match firstRow with
    | [] => .ok []
    | _ :: _ => .error .typeError

def encNoiseChunk (ck : NoiseKey × List (List Nat)) : Except Err (List Nat) :=
  ebind ck.1.item fun xy =>
  ebind (packI32 xy.1) fun b1 =>
  ebind (packI32 xy.2) fun b2 =>
  ebind (packI32 (ck.2.length : Int)) fun lb =>
  ebind (encNoiseSamples ck.2) fun sb => .ok (b1 ++ b2 ++ lb ++ sb)

def sigBytes : List Nat := [77, 65, 80, 0]

/-- Saver.save_map.  The cs argument is the Perlin.CHUNK_SIZE constant of the
generation collaborator (outside the provided sources). -/
def save_map (cs : Int) (m : Map) : Except Err (List Nat) :=
  ebind (packI32 m.seed) fun seedB =>
  ebind (packI32 (m.ores.length : Int)) fun oresN =>
  ebind (encList encOreChunk m.ores) fun oresB =>
  ebind (packI32 (m.structures.length : Int)) fun stN =>
  ebind (encList encStructChunk m.structures) fun stB =>
  ebind (packI32 (m.buildings.length : Int)) fun bldN =>
  ebind (encList encBuilding m.buildings) fun bldB =>
  ebind (packI32 cs) fun csB =>
  ebind (packI32 (m.perlinChunks.length : Int)) fun nzN =>
  ebind (encList encNoiseChunk m.perlinChunks) fun nzB =>
  .ok (sigBytes ++ seedB ++ oresN ++ oresB ++ stN ++ stB ++ bldN ++ bldB ++ csB ++ nzN ++ nzB)

/- Decoder: Saver.load_map.  File reads become a state-passing function on
the remaining byte list; struct.unpack on a short read raises struct.error,
modelled as the truncated error. -/

def Parser (α : Type) : Type := List Nat → Except Err (α × List Nat)

def pPure {α : Type} (a : α) : Parser α := fun bs => .ok (a, bs)

def pFail {α : Type} (e : Err) : Parser α := fun _ => .error e

def pBind {α β : Type} (p : Parser α) (f : α → Parser β) : Parser β := fun bs =>
  match p bs with
  | .error e => .error e
  | .ok (a, rest) => f a rest

def readBytes (n : Nat) : Parser (List Nat) := fun bs =>
  if n ≤ bs.length then .ok (bs.take n, bs.drop n) else .error .truncated

def readI32 : Parser Int :=
  pBind (readBytes 4) fun b => pPure (toI32 (deLE4 b))

def readF32 : Parser Nat :=
  pBind (readBytes 4) fun b => pPure (deLE4 b)

def readByte : Parser Nat :=
  pBind (readBytes 1) fun b => pPure b.headI

def readPoint : Parser Point :=
  pBind readI32 fun px => pBind readI32 fun py => pPure ⟨px, py⟩

def readPoints : Nat → Parser (List Point)
  | 0 => pPure []
  | n + 1 => pBind readPoint fun p => pBind (readPoints n) fun ps => pPure (p :: ps)

/-- Python dict insertion: replace in place if the key is present, else
append.  Used for every dict the loader fills. -/
def dinsert {κ α : Type} [DecidableEq κ] (k : κ) (v : α) : List (κ × α) → List (κ × α)
  | [] => [(k, v)]
  | kv :: rest => if kv.1 = k then (k, v) :: rest else kv :: dinsert k v rest

/-- Modelled from the spec: the OreType enumeration (model.Structures is
outside the provided sources) is a closed set of small-integer tag values
supplied by the generation collaborator; constructing OreType from a value
outside the set raises ValueError.  The set is passed as the tags list. -/
def readOreType (tags : List Nat) : Parser Nat :=
  pBind readByte fun v => if v ∈ tags then pPure v else pFail .badTag

def readOreKinds (tags : List Nat) : Nat → List (Nat × List Point) → Parser (List (Nat × List Point))
  | 0, acc => pPure acc
  | n + 1, acc =>
    pBind (readOreType tags) fun t =>
    pBind readI32 fun np =>
    pBind (readPoints np.toNat) fun ps =>
    readOreKinds tags n (dinsert t ps acc)

def readOreChunks (tags : List Nat) :
    Nat → List (Point × List (Nat × List Point)) → Parser (List (Point × List (Nat × List Point)))
  | 0, acc => pPure acc
  | n + 1, acc =>
    pBind readPoint fun cc =>
    pBind readI32 fun nk =>
    pBind (readOreKinds tags nk.toNat []) fun kinds =>
    readOreChunks tags n (dinsert cc kinds acc)

def parseStructure : Parser Structure :=
  pBind readI32 fun st =>
  pBind readPoint fun pos =>
  pBind readI32 fun np =>
  pBind (readPoints np.toNat) fun ps =>
  pPure ⟨st, pos, ps⟩

def readStructuresList : Nat → Parser (List Structure)
  | 0 => pPure []
  | n + 1 => pBind parseStructure fun s => pBind (readStructuresList n) fun rest => pPure (s :: rest)

def readStructChunks : Nat → List (Point × List Structure) → Parser (List (Point × List Structure))
  | 0, acc => pPure acc
  | n + 1, acc =>
    pBind readPoint fun cc =>
    pBind readI32 fun ns =>
    pBind (readStructuresList ns.toNat) fun sts =>
    readStructChunks n (dinsert cc sts acc)

def parseBuilding : Parser Building :=
  pBind readPoint fun pos =>
  pBind readI32 fun np =>
  pBind (readPoints np.toNat) fun ps =>
  pPure ⟨pos, ps⟩

def readBuildings : Nat → Parser (List Building)
  | 0 => pPure []
  | n + 1 => pBind parseBuilding fun b => pBind (readBuildings n) fun rest => pPure (b :: rest)

def readRow : Nat → Parser (List Nat)
  | 0 => pPure []
  | n + 1 => pBind readF32 fun v => pBind (readRow n) fun rest => pPure (v :: rest)

def readGrid (cols : Nat) : Nat → Parser (List (List Nat))
  | 0 => pPure []
  | n + 1 => pBind (readRow cols) fun r => pBind (readGrid cols n) fun rest => pPure (r :: rest)

/-- Per noise chunk the loader reads the two coordinate integers and then
immediately chunk_size times chunk_size float samples; the grid dimensions
both come from the chunk_size value read from the stream, and the key stored
is a structured Point built from the coordinates. -/
def readNoiseChunks (cs : Int) : Nat → List (NoiseKey × List (List Nat)) → Parser (List (NoiseKey × List (List Nat)))
  | 0, acc => pPure acc
  | n + 1, acc =>
    pBind readPoint fun cc =>
    pBind (readGrid cs.toNat cs.toNat) fun g =>
    readNoiseChunks cs n (dinsert (NoiseKey.point cc) g acc)

def parseNoiseSection : Parser (List (NoiseKey × List (List Nat))) :=
  pBind readI32 fun cs =>
  pBind readI32 fun n =>
  readNoiseChunks cs n.toNat []

def parseOresSection (tags : List Nat) : Parser (List (Point × List (Nat × List Point))) :=
  pBind readI32 fun no => readOreChunks tags no.toNat []

def parseStructsSection : Parser (List (Point × List Structure)) :=
  pBind readI32 fun ns => readStructChunks ns.toNat []

def parseBuildingsSection : Parser (List Building) :=
  pBind readI32 fun nb => readBuildings nb.toNat

def parseBody (tags : List Nat) : Parser Map :=
  pBind readI32 fun seed =>
  pBind (parseOresSection tags) fun ores =>
  pBind parseStructsSection fun sts =>
  pBind parseBuildingsSection fun blds =>
  pBind parseNoiseSection fun chs =>
  pPure ⟨seed, ores, sts, blds, chs⟩

def parseMap (tags : List Nat) : Parser Map :=
  pBind (readBytes 4) fun s =>
  if s = sigBytes then parseBody tags else pFail .badSignature

/-- Saver.load_map: parse the whole stream and return the rebuilt world,
ignoring any trailing bytes, or surface the failure. -/
def load_map (tags : List Nat) (bytes : List Nat) : Except Err Map :=
  match parseMap tags bytes with
  | .error e => .error e
  | .ok (m, _) => .ok m

/- Value descriptions of the loader dict-building loops. -/

def dfoldKinds (l : List (Nat × List Point)) (acc : List (Nat × List Point)) :
    List (Nat × List Point) :=
  l.foldl (fun a kp => dinsert kp.1 kp.2 a) acc

def dfoldOres (l : List (Point × List (Nat × List Point)))
    (acc : List (Point × List (Nat × List Point))) : List (Point × List (Nat × List Point)) :=
  l.foldl (fun a ck => dinsert ck.1 (dfoldKinds ck.2 []) a) acc

def dfoldSt (l : List (Point × List Structure)) (acc : List (Point × List Structure)) :
    List (Point × List Structure) :=
  l.foldl (fun a ck => dinsert ck.1 ck.2 a) acc

/-- The world the loader rebuilds from a saved stream whose noise section is
empty: the chunk-indexed dicts are refilled by insertion in saved order. -/
def decodedOf (m : Map) : Map :=
  ⟨m.seed, dfoldOres m.ores [], dfoldSt m.structures [], m.buildings, []⟩

/- Well-formedness of a world state, per the data-model invariants. -/

/-- Modelled from the spec: every noise chunk grid (produced by the Perlin
collaborator, outside the provided sources) has exactly CHUNK_SIZE rows of
exactly CHUNK_SIZE samples. -/
def wfGrid (cs : Int) (g : List (List Nat)) : Prop :=
  g.length = cs.toNat ∧ ∀ r ∈ g, r.length = cs.toNat

/-- Invariants of a valid world state with respect to the tag enumeration and
the chunk size: every stored ore kind is a member of the enumeration, and
every noise grid is CHUNK_SIZE square. -/
def wf (tags : List Nat) (cs : Int) (m : Map) : Prop :=
  (∀ ck ∈ m.ores, ∀ kp ∈ ck.2, kp.1 ∈ tags) ∧
  (∀ ck ∈ m.perlinChunks, wfGrid cs ck.2)

/- Integer-field enumeration and byte-layout length of a world state. -/

def inR (x : Int) : Bool := decide (-2147483648 ≤ x) && decide (x ≤ 2147483647)

def pointR (p : Point) : Bool := inR p.x && inR p.y

def lenR (n : Nat) : Bool := inR (n : Int)

def keyR : NoiseKey → Bool
  | .pair a b => inR a && inR b
  | .point p => pointR p

/-- Every 32-bit integer field the saver must pack: the seed, each collection
count, each chunk coordinate, each point coordinate, each structure-type id,
and the per-noise-chunk row count. -/
def intFieldsInRange (m : Map) : Bool :=
  inR m.seed &&
  lenR m.ores.length &&
  m.ores.all (fun ck => pointR ck.1 && lenR ck.2.length &&
    ck.2.all fun kp => lenR kp.2.length && kp.2.all pointR) &&
  lenR m.structures.length &&
  m.structures.all (fun ck => pointR ck.1 && lenR ck.2.length &&
    ck.2.all fun s => inR s.structure_type && pointR s.position &&
      lenR s.points.length && s.points.all pointR) &&
  lenR m.buildings.length &&
  m.buildings.all (fun b => pointR b.position && lenR b.points.length && b.points.all pointR) &&
  lenR m.perlinChunks.length &&
  m.perlinChunks.all (fun ck => keyR ck.1 && lenR ck.2.length)

def encPtsLen (l : List Point) : Nat := 8 * l.length

def encKindLen (kp : Nat × List Point) : Nat := 1 + 4 + encPtsLen kp.2

def encOreChunkLen (ck : Point × List (Nat × List Point)) : Nat :=
  8 + 4 + (ck.2.map encKindLen).sum

def encStructureLen (s : Structure) : Nat := 4 + 8 + 4 + encPtsLen s.points

def encStructChunkLen (ck : Point × List Structure) : Nat :=
  8 + 4 + (ck.2.map encStructureLen).sum

def encBuildingLen (b : Building) : Nat := 8 + 4 + encPtsLen b.points

/-- Byte length of a successfully written noise chunk: two coordinates, the
row count, and the samples the saver actually emits (none, since a chunk only
serializes when its first grid row is empty). -/
def encNoiseChunkLen (_ck : NoiseKey × List (List Nat)) : Nat := 8 + 4 + 0

/-- Total byte length of a successful save: 4 signature bytes, then 4 bytes
for every 32-bit integer field, 1 byte per ore tag, 4 bytes per float
sample. -/
def encLen (m : Map) : Nat :=
  4 + 4 + 4 + (m.ores.map encOreChunkLen).sum + 4 + (m.structures.map encStructChunkLen).sum +
  4 + (m.buildings.map encBuildingLen).sum + 4 + 4 + (m.perlinChunks.map encNoiseChunkLen).sum

/- Concrete inputs used by counterexamples and witnesses. -/

/-- A minimal valid world for CHUNK_SIZE 1: one noise chunk, keyed by a bare
pair, with a 1 by 1 grid. -/
def wNoise1 : Map := ⟨0, [], [], [], [(NoiseKey.pair 0 0, [[0]])]⟩

/-- A world whose listed integer fields are all in signed 32-bit range yet
whose noise chunk makes the saver fail. -/
def wAllInRange : Map := ⟨0, [], [], [], [(NoiseKey.pair 0 0, [[3]])]⟩

/-- A world whose seed is one past the signed 32-bit maximum. -/
def wSeedBig : Map := ⟨2147483648, [], [], [], []⟩

/-- The byte stream the saver layout of section 4.1 prescribes for one noise
chunk of a 1 by 1 grid: signature, seed 7, three empty sections, chunk size 1,
chunk count 1, coordinates (0, 0), row count 1, then the single sample 9. -/
def sRowCount : List Nat :=
  sigBytes ++ le4 7 ++ le4 0 ++ le4 0 ++ le4 0 ++ le4 1 ++ le4 1 ++ le4 0 ++ le4 0 ++ le4 1 ++ le4 9

/-- A stream with one noise chunk at coordinates (2, 3) with 1 by 1 grid. -/
def sOneNoise : List Nat :=
  sigBytes ++ le4 5 ++ le4 0 ++ le4 0 ++ le4 0 ++ le4 1 ++ le4 1 ++ le4 2 ++ le4 3 ++ le4 4

/-- The world the loader rebuilds from sOneNoise. -/
def mOneNoise : Map := ⟨5, [], [], [], [(NoiseKey.point ⟨2, 3⟩, [[4]])]⟩

/-- The bytes of a saved empty world with seed 0 and CHUNK_SIZE 1. -/
def bsEmpty01 : List Nat := sigBytes ++ le4 0 ++ le4 0 ++ le4 0 ++ le4 0 ++ le4 1 ++ le4 0

/-- A noise-section byte stream alone: chunk size 1, one chunk at (0, 0),
one sample word 9. -/
def sNoiseOnly : List Nat := le4 1 ++ le4 1 ++ le4 0 ++ le4 0 ++ le4 9

/-- What the loader guarantees for every rebuilt noise-chunk entry: the key
is a structured Point and the grid is square with the stream chunk size. -/
def GridOkKV (cs : Int) (kv : NoiseKey × List (List Nat)) : Prop :=
  (∃ p, kv.1 = NoiseKey.point p) ∧ kv.2.length = cs.toNat ∧ ∀ r ∈ kv.2, r.length = cs.toNat

/-- True when every noise-chunk key of the world is a bare integer pair. -/
def keysArePairs (m : Map) : Bool :=
  m.perlinChunks.all fun kv =>
    match kv.1 with
    | NoiseKey.pair _ _ => true
    | NoiseKey.point _ => false

/-- A parser consumes exactly the bytes c producing a: on c followed by
anything it succeeds returning a with the trailing bytes untouched, and on
every strict prefix of c it fails. -/
def ConsumesOk {α : Type} (p : Parser α) (c : List Nat) (a : α) : Prop :=
  (∀ t, p (c ++ t) = .ok (a, t)) ∧ (∀ k, k < c.length → ∃ e, p (c.take k) = .error e)

/- Basic inversion and stepping lemmas. -/

theorem ebind_ok {α β : Type} {x : Except Err α} {f : α → Except Err β} {b : β}
    (h : ebind x f = .ok b) : ∃ a, x = .ok a ∧ f a = .ok b := by
  cases x with
  | error e => simp [ebind] at h
  | ok a => exact ⟨a, rfl, h⟩

theorem pBind_ok_inv {α β : Type} {p : Parser α} {f : α → Parser β} {bs : List Nat}
    {r : β × List Nat} (h : pBind p f bs = .ok r) :
    ∃ a rest, p bs = .ok (a, rest) ∧ f a rest = .ok r := by
  unfold pBind at h
  cases hp : p bs with
  | error e => rw [hp] at h; simp at h
  | ok ar => rw [hp] at h; exact ⟨ar.1, ar.2, rfl, h⟩

theorem pBind_step {α β : Type} {p : Parser α} {f : α → Parser β} {bs : List Nat}
    {a : α} {rest : List Nat} (h : p bs = .ok (a, rest)) : pBind p f bs = f a rest := by
  unfold pBind; rw [h]

theorem pBind_err {α β : Type} {p : Parser α} {f : α → Parser β} {bs : List Nat}
    {e : Err} (h : p bs = .error e) : pBind p f bs = .error e := by
  unfold pBind; rw [h]

/- Packing arithmetic. -/

theorem le4_length (n : Nat) : (le4 n).length = 4 := rfl

theorem deLE4_le4 (n : Nat) : deLE4 (le4 n) = n % 4294967296 := by
  simp only [le4, deLE4]
  omega

theorem packI32_ok {x : Int} {c : List Nat} (h : packI32 x = .ok c) :
    c = le4 (x % 4294967296).toNat ∧ -2147483648 ≤ x ∧ x ≤ 2147483647 := by
  unfold packI32 at h
  split at h
  · rename_i hr
    exact ⟨by injection h with h2; exact h2.symm, hr.1, hr.2⟩
  · simp at h

theorem packI32_length {x : Int} {c : List Nat} (h : packI32 x = .ok c) : c.length = 4 := by
  rw [(packI32_ok h).1]; rfl

theorem packB_ok {b : Nat} {c : List Nat} (h : packB b = .ok c) : c = [b] ∧ b ≤ 255 := by
  unfold packB at h
  split at h
  · rename_i hr; exact ⟨by injection h with h2; exact h2.symm, hr⟩
  · simp at h

theorem toI32_roundtrip {x : Int} (h1 : -2147483648 ≤ x) (h2 : x ≤ 2147483647) :
    toI32 (deLE4 (le4 (x % 4294967296).toNat)) = x := by
  rw [deLE4_le4]
  unfold toI32
  split <;> rename_i hc <;> omega

/- Consumption combinators. -/

theorem co_pure {α : Type} (a : α) : ConsumesOk (pPure a) [] a := by
  constructor
  · intro t; rfl
  · intro k hk; simp at hk

theorem co_readBytes {n : Nat} {c : List Nat} (h : c.length = n) :
    ConsumesOk (readBytes n) c c := by
  constructor
  · intro t
    unfold readBytes
    rw [if_pos (by simp [h]), List.take_left' h, List.drop_left' h]
  · intro k hk
    refine ⟨.truncated, ?_⟩
    unfold readBytes
    rw [if_neg]
    rw [List.length_take_of_le (by omega)]
    omega

theorem co_bind {α β : Type} {p : Parser α} {f : α → Parser β} {c1 c2 : List Nat}
    {a : α} {b : β} (h1 : ConsumesOk p c1 a) (h2 : ConsumesOk (f a) c2 b) :
    ConsumesOk (pBind p f) (c1 ++ c2) b := by
  constructor
  · intro t
    rw [List.append_assoc, pBind_step (h1.1 (c2 ++ t))]
    exact h2.1 t
  · intro k hk
    rw [List.length_append] at hk
    by_cases hlt : k < c1.length
    · obtain ⟨e, he⟩ := h1.2 k hlt
      refine ⟨e, ?_⟩
      rw [List.take_append_of_le_length (by omega), pBind_err he]
    · push_neg at hlt
      obtain ⟨e, he⟩ := h2.2 (k - c1.length) (by omega)
      refine ⟨e, ?_⟩
      rw [List.take_append_eq_append_take, List.take_of_length_le hlt,
        pBind_step (h1.1 _)]
      exact he

theorem co_congr {α : Type} {p : Parser α} {c c2 : List Nat} {a : α}
    (h : ConsumesOk p c a) (e : c = c2) : ConsumesOk p c2 a := e ▸ h

theorem co_val {α : Type} {p : Parser α} {c : List Nat} {a b : α}
    (h : ConsumesOk p c a) (e : a = b) : ConsumesOk p c b := e ▸ h

/-- Variant of co_bind with the continuation explicit, so the second premise
elaborates by beta reduction instead of higher-order unification. -/
theorem co_bindf {α β : Type} (f : α → Parser β) {p : Parser α} {c1 c2 : List Nat}
    {a : α} {b : β} (h1 : ConsumesOk p c1 a) (h2 : ConsumesOk (f a) c2 b) :
    ConsumesOk (pBind p f) (c1 ++ c2) b := co_bind h1 h2

theorem co_map {α β : Type} {p : Parser α} {c : List Nat} {a : α} (g : α → β)
    (h : ConsumesOk p c a) :
    ConsumesOk (pBind p fun x => pPure (g x)) c (g a) := by
  have := co_bindf (fun x => pPure (g x)) h (co_pure (g a))
  simpa using this

theorem co_readI32 {c : List Nat} (h : c.length = 4) :
    ConsumesOk readI32 c (toI32 (deLE4 c)) :=
  co_map (fun b => toI32 (deLE4 b)) (co_readBytes h)

theorem co_packI32 {x : Int} {c : List Nat} (h : packI32 x = .ok c) :
    ConsumesOk readI32 c x := by
  obtain ⟨hc, h1, h2⟩ := packI32_ok h
  subst hc
  exact co_val (co_readI32 (le4_length _)) (toI32_roundtrip h1 h2)

theorem co_encPoint {p : Point} {c : List Nat} (h : encPoint p = .ok c) :
    ConsumesOk readPoint c p := by
  unfold encPoint at h
  obtain ⟨c1, h1, h⟩ := ebind_ok h
  obtain ⟨c2, h2, h⟩ := ebind_ok h
  injection h with h
  subst h
  have := co_bindf (fun px => pBind readI32 fun py => pPure (Point.mk px py)) (co_packI32 h1)
    (co_bindf (fun py => pPure (Point.mk p.x py)) (co_packI32 h2) (co_pure (Point.mk p.x p.y)))
  have h9 : Point.mk p.x p.y = p := rfl
  rw [h9] at this
  simpa [readPoint] using this

theorem encList_nil_ok {α : Type} {f : α → Except Err (List Nat)} {c : List Nat}
    (h : encList f [] = .ok c) : c = [] := by
  unfold encList at h; injection h with h; exact h.symm

theorem encList_cons_ok {α : Type} {f : α → Except Err (List Nat)} {a : α} {l : List α}
    {c : List Nat} (h : encList f (a :: l) = .ok c) :
    ∃ c1 c2, f a = .ok c1 ∧ encList f l = .ok c2 ∧ c = c1 ++ c2 := by
  unfold encList at h
  obtain ⟨c1, h1, h⟩ := ebind_ok h
  obtain ⟨c2, h2, h⟩ := ebind_ok h
  injection h with h
  exact ⟨c1, c2, h1, h2, h.symm⟩

theorem co_readPoints {l : List Point} {c : List Nat}
    (h : encList encPoint l = .ok c) : ConsumesOk (readPoints l.length) c l := by
  induction l generalizing c with
  | nil =>
    rw [encList_nil_ok h]
    exact co_pure []
  | cons p ps ih =>
    obtain ⟨c1, c2, h1, h2, rfl⟩ := encList_cons_ok h
    have := co_bindf (fun q => pBind (readPoints ps.length) fun qs => pPure (q :: qs))
      (co_encPoint h1)
      (co_bindf (fun qs => pPure (p :: qs)) (ih h2) (co_pure (p :: ps)))
    simpa [readPoints] using this

theorem co_readOreType {tags : List Nat} {t : Nat} {c : List Nat}
    (h : packB t = .ok c) (ht : t ∈ tags) : ConsumesOk (readOreType tags) c t := by
  obtain ⟨hc, _⟩ := packB_ok h
  subst hc
  have hbyte : ConsumesOk readByte [t] t := by
    have := co_map (fun b : List Nat => b.headI) (co_readBytes (show ([t] : List Nat).length = 1 from rfl))
    simpa [readByte] using this
  have hcont : ConsumesOk ((fun v => if v ∈ tags then pPure v else pFail .badTag) t) [] t := by
    simp only [if_pos ht]
    exact co_pure t
  have := co_bindf (fun v => if v ∈ tags then pPure v else pFail .badTag) hbyte hcont
  simpa [readOreType] using this

theorem co_readOreKinds {tags : List Nat} {l : List (Nat × List Point)} {c : List Nat}
    (h : encList encOreKind l = .ok c) (ht : ∀ kp ∈ l, kp.1 ∈ tags) :
    ∀ acc, ConsumesOk (readOreKinds tags l.length acc) c (dfoldKinds l acc) := by
  induction l generalizing c with
  | nil =>
    intro acc
    rw [encList_nil_ok h]
    exact co_pure acc
  | cons kp rest ih =>
    intro acc
    obtain ⟨c1, c2, h1, h2, rfl⟩ := encList_cons_ok h
    unfold encOreKind at h1
    obtain ⟨tb, htb, h1⟩ := ebind_ok h1
    obtain ⟨lb, hlb, h1⟩ := ebind_ok h1
    obtain ⟨pb, hpb, h1⟩ := ebind_ok h1
    injection h1 with h1
    subst h1
    have s1 : ConsumesOk (readOreKinds tags rest.length (dinsert kp.1 kp.2 acc)) c2
        (dfoldKinds rest (dinsert kp.1 kp.2 acc)) :=
      ih h2 (fun q hq => ht q (List.mem_cons_of_mem _ hq)) _
    have s2 : ConsumesOk ((fun ps => readOreKinds tags rest.length (dinsert kp.1 ps acc)) kp.2)
        c2 (dfoldKinds rest (dinsert kp.1 kp.2 acc)) := s1
    have s3 := co_bindf (fun ps => readOreKinds tags rest.length (dinsert kp.1 ps acc))
      (co_readPoints hpb) s2
    have s4 : ConsumesOk
        ((fun np => pBind (readPoints np.toNat) fun ps =>
          readOreKinds tags rest.length (dinsert kp.1 ps acc)) ((kp.2.length : Nat) : Int))
        (pb ++ c2) (dfoldKinds rest (dinsert kp.1 kp.2 acc)) := s3
    have s5 := co_bindf (fun np => pBind (readPoints np.toNat) fun ps =>
      readOreKinds tags rest.length (dinsert kp.1 ps acc)) (co_packI32 hlb) s4
    have s6 : ConsumesOk
        ((fun t => pBind readI32 fun np => pBind (readPoints np.toNat) fun ps =>
          readOreKinds tags rest.length (dinsert t ps acc)) kp.1)
        (lb ++ (pb ++ c2)) (dfoldKinds rest (dinsert kp.1 kp.2 acc)) := s5
    have s7 := co_bindf (fun t => pBind readI32 fun np => pBind (readPoints np.toNat) fun ps =>
      readOreKinds tags rest.length (dinsert t ps acc))
      (co_readOreType htb (ht kp (List.mem_cons_self kp rest))) s6
    have s8 : ConsumesOk (readOreKinds tags (kp :: rest).length acc)
        (tb ++ (lb ++ (pb ++ c2))) (dfoldKinds (kp :: rest) acc) := s7
    exact co_congr s8 (by simp)

theorem co_readOreChunks {tags : List Nat} {l : List (Point × List (Nat × List Point))}
    {c : List Nat} (h : encList encOreChunk l = .ok c)
    (ht : ∀ ck ∈ l, ∀ kp ∈ ck.2, kp.1 ∈ tags) :
    ∀ acc, ConsumesOk (readOreChunks tags l.length acc) c (dfoldOres l acc) := by
  induction l generalizing c with
  | nil =>
    intro acc
    rw [encList_nil_ok h]
    exact co_pure acc
  | cons ck rest ih =>
    intro acc
    obtain ⟨c1, c2, h1, h2, rfl⟩ := encList_cons_ok h
    unfold encOreChunk at h1
    obtain ⟨cb, hcb, h1⟩ := ebind_ok h1
    obtain ⟨lb, hlb, h1⟩ := ebind_ok h1
    obtain ⟨kb, hkb, h1⟩ := ebind_ok h1
    injection h1 with h1
    subst h1
    have s1 : ConsumesOk (readOreChunks tags rest.length (dinsert ck.1 (dfoldKinds ck.2 []) acc))
        c2 (dfoldOres rest (dinsert ck.1 (dfoldKinds ck.2 []) acc)) :=
      ih h2 (fun q hq => ht q (List.mem_cons_of_mem _ hq)) _
    have s2 : ConsumesOk ((fun kinds => readOreChunks tags rest.length (dinsert ck.1 kinds acc))
        (dfoldKinds ck.2 [])) c2 (dfoldOres rest (dinsert ck.1 (dfoldKinds ck.2 []) acc)) := s1
    have s3 := co_bindf (fun kinds => readOreChunks tags rest.length (dinsert ck.1 kinds acc))
      (co_readOreKinds hkb (ht ck (List.mem_cons_self ck rest)) []) s2
    have s4 : ConsumesOk
        ((fun nk => pBind (readOreKinds tags nk.toNat []) fun kinds =>
          readOreChunks tags rest.length (dinsert ck.1 kinds acc)) ((ck.2.length : Nat) : Int))
        (kb ++ c2) (dfoldOres rest (dinsert ck.1 (dfoldKinds ck.2 []) acc)) := s3
    have s5 := co_bindf (fun nk => pBind (readOreKinds tags nk.toNat []) fun kinds =>
      readOreChunks tags rest.length (dinsert ck.1 kinds acc)) (co_packI32 hlb) s4
    have s6 : ConsumesOk
        ((fun cc => pBind readI32 fun nk => pBind (readOreKinds tags nk.toNat []) fun kinds =>
          readOreChunks tags rest.length (dinsert cc kinds acc)) ck.1)
        (lb ++ (kb ++ c2)) (dfoldOres rest (dinsert ck.1 (dfoldKinds ck.2 []) acc)) := s5
    have s7 := co_bindf (fun cc => pBind readI32 fun nk =>
      pBind (readOreKinds tags nk.toNat []) fun kinds =>
      readOreChunks tags rest.length (dinsert cc kinds acc)) (co_encPoint hcb) s6
    have s8 : ConsumesOk (readOreChunks tags (ck :: rest).length acc)
        (cb ++ (lb ++ (kb ++ c2))) (dfoldOres (ck :: rest) acc) := s7
    exact co_congr s8 (by simp)

theorem co_parseStructure {s : Structure} {c : List Nat} (h : encStructure s = .ok c) :
    ConsumesOk parseStructure c s := by
  unfold encStructure at h
  obtain ⟨tb, htb, h⟩ := ebind_ok h
  obtain ⟨pb, hpb, h⟩ := ebind_ok h
  obtain ⟨lb, hlb, h⟩ := ebind_ok h
  obtain ⟨fb, hfb, h⟩ := ebind_ok h
  injection h with h
  subst h
  have s1 : ConsumesOk ((fun ps => pPure (Structure.mk s.structure_type s.position ps)) s.points)
      [] (Structure.mk s.structure_type s.position s.points) := co_pure _
  have s2 := co_bindf (fun ps => pPure (Structure.mk s.structure_type s.position ps))
    (co_readPoints hfb) s1
  have s3 : ConsumesOk
      ((fun np => pBind (readPoints np.toNat) fun ps =>
        pPure (Structure.mk s.structure_type s.position ps)) ((s.points.length : Nat) : Int))
      (fb ++ []) (Structure.mk s.structure_type s.position s.points) := s2
  have s4 := co_bindf (fun np => pBind (readPoints np.toNat) fun ps =>
    pPure (Structure.mk s.structure_type s.position ps)) (co_packI32 hlb) s3
  have s5 : ConsumesOk
      ((fun pos => pBind readI32 fun np => pBind (readPoints np.toNat) fun ps =>
        pPure (Structure.mk s.structure_type pos ps)) s.position)
      (lb ++ (fb ++ [])) (Structure.mk s.structure_type s.position s.points) := s4
  have s6 := co_bindf (fun pos => pBind readI32 fun np => pBind (readPoints np.toNat) fun ps =>
    pPure (Structure.mk s.structure_type pos ps)) (co_encPoint hpb) s5
  have s7 : ConsumesOk
      ((fun st => pBind readPoint fun pos => pBind readI32 fun np =>
        pBind (readPoints np.toNat) fun ps => pPure (Structure.mk st pos ps)) s.structure_type)
      (pb ++ (lb ++ (fb ++ []))) (Structure.mk s.structure_type s.position s.points) := s6
  have s8 := co_bindf (fun st => pBind readPoint fun pos => pBind readI32 fun np =>
    pBind (readPoints np.toNat) fun ps => pPure (Structure.mk st pos ps)) (co_packI32 htb) s7
  have s9 : Structure.mk s.structure_type s.position s.points = s := rfl
  rw [s9] at s8
  have s10 : ConsumesOk parseStructure (tb ++ (pb ++ (lb ++ (fb ++ [])))) s := s8
  exact co_congr s10 (by simp)

theorem co_readStructuresList {l : List Structure} {c : List Nat}
    (h : encList encStructure l = .ok c) : ConsumesOk (readStructuresList l.length) c l := by
  induction l generalizing c with
  | nil =>
    rw [encList_nil_ok h]
    exact co_pure []
  | cons s rest ih =>
    obtain ⟨c1, c2, h1, h2, rfl⟩ := encList_cons_ok h
    have := co_bindf (fun q => pBind (readStructuresList rest.length) fun qs => pPure (q :: qs))
      (co_parseStructure h1)
      (co_bindf (fun qs => pPure (s :: qs)) (ih h2) (co_pure (s :: rest)))
    simpa [readStructuresList] using this

theorem co_readStructChunks {l : List (Point × List Structure)} {c : List Nat}
    (h : encList encStructChunk l = .ok c) :
    ∀ acc, ConsumesOk (readStructChunks l.length acc) c (dfoldSt l acc) := by
  induction l generalizing c with
  | nil =>
    intro acc
    rw [encList_nil_ok h]
    exact co_pure acc
  | cons ck rest ih =>
    intro acc
    obtain ⟨c1, c2, h1, h2, rfl⟩ := encList_cons_ok h
    unfold encStructChunk at h1
    obtain ⟨cb, hcb, h1⟩ := ebind_ok h1
    obtain ⟨lb, hlb, h1⟩ := ebind_ok h1
    obtain ⟨sb, hsb, h1⟩ := ebind_ok h1
    injection h1 with h1
    subst h1
    have s1 : ConsumesOk (readStructChunks rest.length (dinsert ck.1 ck.2 acc)) c2
        (dfoldSt rest (dinsert ck.1 ck.2 acc)) := ih h2 _
    have s2 : ConsumesOk ((fun sts => readStructChunks rest.length (dinsert ck.1 sts acc)) ck.2)
        c2 (dfoldSt rest (dinsert ck.1 ck.2 acc)) := s1
    have s3 := co_bindf (fun sts => readStructChunks rest.length (dinsert ck.1 sts acc))
      (co_readStructuresList hsb) s2
    have s4 : ConsumesOk
        ((fun ns => pBind (readStructuresList ns.toNat) fun sts =>
          readStructChunks rest.length (dinsert ck.1 sts acc)) ((ck.2.length : Nat) : Int))
        (sb ++ c2) (dfoldSt rest (dinsert ck.1 ck.2 acc)) := s3
    have s5 := co_bindf (fun ns => pBind (readStructuresList ns.toNat) fun sts =>
      readStructChunks rest.length (dinsert ck.1 sts acc)) (co_packI32 hlb) s4
    have s6 : ConsumesOk
        ((fun cc => pBind readI32 fun ns => pBind (readStructuresList ns.toNat) fun sts =>
          readStructChunks rest.length (dinsert cc sts acc)) ck.1)
        (lb ++ (sb ++ c2)) (dfoldSt rest (dinsert ck.1 ck.2 acc)) := s5
    have s7 := co_bindf (fun cc => pBind readI32 fun ns =>
      pBind (readStructuresList ns.toNat) fun sts =>
      readStructChunks rest.length (dinsert cc sts acc)) (co_encPoint hcb) s6
    have s8 : ConsumesOk (readStructChunks (ck :: rest).length acc)
        (cb ++ (lb ++ (sb ++ c2))) (dfoldSt (ck :: rest) acc) := s7
    exact co_congr s8 (by simp)

theorem co_parseBuilding {b : Building} {c : List Nat} (h : encBuilding b = .ok c) :
    ConsumesOk parseBuilding c b := by
  unfold encBuilding at h
  obtain ⟨pb, hpb, h⟩ := ebind_ok h
  obtain ⟨lb, hlb, h⟩ := ebind_ok h
  obtain ⟨fb, hfb, h⟩ := ebind_ok h
  injection h with h
  subst h
  have s1 : ConsumesOk ((fun ps => pPure (Building.mk b.position ps)) b.points)
      [] (Building.mk b.position b.points) := co_pure _
  have s2 := co_bindf (fun ps => pPure (Building.mk b.position ps)) (co_readPoints hfb) s1
  have s3 : ConsumesOk
      ((fun np => pBind (readPoints np.toNat) fun ps => pPure (Building.mk b.position ps))
        ((b.points.length : Nat) : Int))
      (fb ++ []) (Building.mk b.position b.points) := s2
  have s4 := co_bindf (fun np => pBind (readPoints np.toNat) fun ps =>
    pPure (Building.mk b.position ps)) (co_packI32 hlb) s3
  have s5 : ConsumesOk
      ((fun pos => pBind readI32 fun np => pBind (readPoints np.toNat) fun ps =>
        pPure (Building.mk pos ps)) b.position)
      (lb ++ (fb ++ [])) (Building.mk b.position b.points) := s4
  have s6 := co_bindf (fun pos => pBind readI32 fun np => pBind (readPoints np.toNat) fun ps =>
    pPure (Building.mk pos ps)) (co_encPoint hpb) s5
  have s7 : Building.mk b.position b.points = b := rfl
  rw [s7] at s6
  have s8 : ConsumesOk parseBuilding (pb ++ (lb ++ (fb ++ []))) b := s6
  exact co_congr s8 (by simp)

theorem co_readBuildings {l : List Building} {c : List Nat}
    (h : encList encBuilding l = .ok c) : ConsumesOk (readBuildings l.length) c l := by
  induction l generalizing c with
  | nil =>
    rw [encList_nil_ok h]
    exact co_pure []
  | cons b rest ih =>
    obtain ⟨c1, c2, h1, h2, rfl⟩ := encList_cons_ok h
    have := co_bindf (fun q => pBind (readBuildings rest.length) fun qs => pPure (q :: qs))
      (co_parseBuilding h1)
      (co_bindf (fun qs => pPure (b :: qs)) (ih h2) (co_pure (b :: rest)))
    simpa [readBuildings] using this

/- Section-level consumption lemmas: each encoded section, count prefix
included, is consumed exactly by the matching section parser. -/

theorem co_oresSection {tags : List Nat} {l : List (Point × List (Nat × List Point))}
    {cn c : List Nat} (hn : packI32 (l.length : Int) = .ok cn)
    (h : encList encOreChunk l = .ok c)
    (ht : ∀ ck ∈ l, ∀ kp ∈ ck.2, kp.1 ∈ tags) :
    ConsumesOk (parseOresSection tags) (cn ++ c) (dfoldOres l []) := by
  have s1 : ConsumesOk ((fun no => readOreChunks tags no.toNat []) ((l.length : Nat) : Int))
      c (dfoldOres l []) := co_readOreChunks h ht []
  have := co_bindf (fun no => readOreChunks tags no.toNat []) (co_packI32 hn) s1
  exact this

theorem co_structsSection {l : List (Point × List Structure)} {cn c : List Nat}
    (hn : packI32 (l.length : Int) = .ok cn) (h : encList encStructChunk l = .ok c) :
    ConsumesOk parseStructsSection (cn ++ c) (dfoldSt l []) := by
  have s1 : ConsumesOk ((fun ns => readStructChunks ns.toNat []) ((l.length : Nat) : Int))
      c (dfoldSt l []) := co_readStructChunks h []
  exact co_bindf (fun ns => readStructChunks ns.toNat []) (co_packI32 hn) s1

theorem co_buildingsSection {l : List Building} {cn c : List Nat}
    (hn : packI32 (l.length : Int) = .ok cn) (h : encList encBuilding l = .ok c) :
    ConsumesOk parseBuildingsSection (cn ++ c) l := by
  have s1 : ConsumesOk ((fun nb => readBuildings nb.toNat) ((l.length : Nat) : Int)) c l :=
    co_readBuildings h
  exact co_bindf (fun nb => readBuildings nb.toNat) (co_packI32 hn) s1

/- A successful save forces the noise dict to be empty: any chunk would make
the sample loop fail (IndexError on an empty grid, TypeError on a grid whose
first row holds a sample), and a valid grid is square. -/

theorem encNoiseSamples_ok {g : List (List Nat)} {c : List Nat}
    (h : encNoiseSamples g = .ok c) : c = [] ∧ ∃ rest, g = [] :: rest := by
  match g with
  | [] => simp [encNoiseSamples] at h
  | firstRow :: rest =>
    match firstRow with
    | [] =>
      refine ⟨?_, rest, rfl⟩
      injection h with h
      exact h.symm
    | q :: qs => simp [encNoiseSamples] at h

theorem noise_chunks_empty {cs : Int} {chs : List (NoiseKey × List (List Nat))} {c : List Nat}
    (hg : ∀ ck ∈ chs, wfGrid cs ck.2) (h : encList encNoiseChunk chs = .ok c) :
    chs = [] ∧ c = [] := by
  cases chs with
  | nil => exact ⟨rfl, encList_nil_ok h⟩
  | cons ck rest =>
    exfalso
    obtain ⟨c1, c2, h1, h2, hc⟩ := encList_cons_ok h
    unfold encNoiseChunk at h1
    obtain ⟨xy, hxy, h1⟩ := ebind_ok h1
    obtain ⟨b1, hb1, h1⟩ := ebind_ok h1
    obtain ⟨b2, hb2, h1⟩ := ebind_ok h1
    obtain ⟨lb, hlb, h1⟩ := ebind_ok h1
    obtain ⟨sb, hsb, h1⟩ := ebind_ok h1
    obtain ⟨hsb0, rows, hrows⟩ := encNoiseSamples_ok hsb
    obtain ⟨hlen, hrowlen⟩ := hg ck (List.mem_cons_self ck rest)
    rw [hrows] at hlen hrowlen
    have h0 : ([] : List Nat).length = cs.toNat := hrowlen [] (List.mem_cons_self _ _)
    simp only [List.length_cons, List.length_nil] at hlen h0
    omega

/-- The consumption of the noise section written for an empty noise dict:
the CHUNK_SIZE integer, then a zero chunk count, then nothing. -/
theorem co_noiseSection_empty {cs : Int} {csB nzN : List Nat}
    (hcs : packI32 cs = .ok csB) (hn : packI32 ((0 : Nat) : Int) = .ok nzN) :
    ConsumesOk parseNoiseSection (csB ++ (nzN ++ [])) [] := by
  have s1 : ConsumesOk (readNoiseChunks cs (((0 : Nat) : Int)).toNat []) [] [] := co_pure []
  have s2 : ConsumesOk ((fun n => readNoiseChunks cs n.toNat []) ((0 : Nat) : Int)) [] [] := s1
  have s3 := co_bindf (fun n => readNoiseChunks cs n.toNat []) (co_packI32 hn) s2
  have s4 : ConsumesOk ((fun c => pBind readI32 fun n => readNoiseChunks c n.toNat []) cs)
      (nzN ++ []) [] := s3
  exact co_bindf (fun c => pBind readI32 fun n => readNoiseChunks c n.toNat [])
    (co_packI32 hcs) s4

/- Save inversion: a successful save exposes every section encoding. -/

theorem save_map_ok {cs : Int} {m : Map} {bs : List Nat} (h : save_map cs m = .ok bs) :
    ∃ seedB oresN oresB stN stB bldN bldB csB nzN nzB,
      packI32 m.seed = .ok seedB ∧
      packI32 (m.ores.length : Int) = .ok oresN ∧
      encList encOreChunk m.ores = .ok oresB ∧
      packI32 (m.structures.length : Int) = .ok stN ∧
      encList encStructChunk m.structures = .ok stB ∧
      packI32 (m.buildings.length : Int) = .ok bldN ∧
      encList encBuilding m.buildings = .ok bldB ∧
      packI32 cs = .ok csB ∧
      packI32 (m.perlinChunks.length : Int) = .ok nzN ∧
      encList encNoiseChunk m.perlinChunks = .ok nzB ∧
      bs = sigBytes ++ seedB ++ oresN ++ oresB ++ stN ++ stB ++ bldN ++ bldB ++ csB ++ nzN ++ nzB := by
  unfold save_map at h
  obtain ⟨seedB, h1, h⟩ := ebind_ok h
  obtain ⟨oresN, h2, h⟩ := ebind_ok h
  obtain ⟨oresB, h3, h⟩ := ebind_ok h
  obtain ⟨stN, h4, h⟩ := ebind_ok h
  obtain ⟨stB, h5, h⟩ := ebind_ok h
  obtain ⟨bldN, h6, h⟩ := ebind_ok h
  obtain ⟨bldB, h7, h⟩ := ebind_ok h
  obtain ⟨csB, h8, h⟩ := ebind_ok h
  obtain ⟨nzN, h9, h⟩ := ebind_ok h
  obtain ⟨nzB, h10, h⟩ := ebind_ok h
  injection h with h
  exact ⟨seedB, oresN, oresB, stN, stB, bldN, bldB, csB, nzN, nzB,
    h1, h2, h3, h4, h5, h6, h7, h8, h9, h10, h.symm⟩

/-- The central consumption theorem: a save of a valid world is parsed back in
full, producing the dict-refilled world, and every strict prefix of the saved
bytes makes the parser fail. -/
theorem save_ok_consumes {tags : List Nat} {cs : Int} {m : Map} {bs : List Nat}
    (hwf : wf tags cs m) (h : save_map cs m = .ok bs) :
    ConsumesOk (parseMap tags) bs (decodedOf m) := by
  obtain ⟨htags, hgrid⟩ := hwf
  obtain ⟨seedB, oresN, oresB, stN, stB, bldN, bldB, csB, nzN, nzB,
    hseed, horesN, horesB, hstN, hstB, hbldN, hbldB, hcs, hnzN, hnzB, hbs⟩ := save_map_ok h
  obtain ⟨hchs, hnzB0⟩ := noise_chunks_empty hgrid hnzB
  rw [hchs] at hnzN
  have sNoise : ConsumesOk parseNoiseSection (csB ++ (nzN ++ [])) [] :=
    co_noiseSection_empty hcs hnzN
  have sOres : ConsumesOk (parseOresSection tags) (oresN ++ oresB) (dfoldOres m.ores []) :=
    co_oresSection horesN horesB htags
  have sSt : ConsumesOk parseStructsSection (stN ++ stB) (dfoldSt m.structures []) :=
    co_structsSection hstN hstB
  have sBld : ConsumesOk parseBuildingsSection (bldN ++ bldB) m.buildings :=
    co_buildingsSection hbldN hbldB
  have t1 : ConsumesOk ((fun chs => pPure (Map.mk m.seed (dfoldOres m.ores [])
      (dfoldSt m.structures []) m.buildings chs)) ([] : List (NoiseKey × List (List Nat))))
      [] (decodedOf m) := co_pure _
  have t2 := co_bindf (fun chs => pPure (Map.mk m.seed (dfoldOres m.ores [])
    (dfoldSt m.structures []) m.buildings chs)) sNoise t1
  have t3 : ConsumesOk ((fun blds => pBind parseNoiseSection fun chs =>
      pPure (Map.mk m.seed (dfoldOres m.ores []) (dfoldSt m.structures []) blds chs))
      m.buildings) ((csB ++ (nzN ++ [])) ++ []) (decodedOf m) := t2
  have t4 := co_bindf (fun blds => pBind parseNoiseSection fun chs =>
    pPure (Map.mk m.seed (dfoldOres m.ores []) (dfoldSt m.structures []) blds chs)) sBld t3
  have t5 : ConsumesOk ((fun sts => pBind parseBuildingsSection fun blds =>
      pBind parseNoiseSection fun chs =>
      pPure (Map.mk m.seed (dfoldOres m.ores []) sts blds chs)) (dfoldSt m.structures []))
      ((bldN ++ bldB) ++ ((csB ++ (nzN ++ [])) ++ [])) (decodedOf m) := t4
  have t6 := co_bindf (fun sts => pBind parseBuildingsSection fun blds =>
    pBind parseNoiseSection fun chs =>
    pPure (Map.mk m.seed (dfoldOres m.ores []) sts blds chs)) sSt t5
  have t7 : ConsumesOk ((fun ores => pBind parseStructsSection fun sts =>
      pBind parseBuildingsSection fun blds => pBind parseNoiseSection fun chs =>
      pPure (Map.mk m.seed ores sts blds chs)) (dfoldOres m.ores []))
      ((stN ++ stB) ++ ((bldN ++ bldB) ++ ((csB ++ (nzN ++ [])) ++ []))) (decodedOf m) := t6
  have t8 := co_bindf (fun ores => pBind parseStructsSection fun sts =>
    pBind parseBuildingsSection fun blds => pBind parseNoiseSection fun chs =>
    pPure (Map.mk m.seed ores sts blds chs)) sOres t7
  have t9 : ConsumesOk ((fun seed => pBind (parseOresSection tags) fun ores =>
      pBind parseStructsSection fun sts => pBind parseBuildingsSection fun blds =>
      pBind parseNoiseSection fun chs => pPure (Map.mk seed ores sts blds chs)) m.seed)
      ((oresN ++ oresB) ++ ((stN ++ stB) ++ ((bldN ++ bldB) ++ ((csB ++ (nzN ++ [])) ++ []))))
      (decodedOf m) := t8
  have t10 := co_bindf (fun seed => pBind (parseOresSection tags) fun ores =>
    pBind parseStructsSection fun sts => pBind parseBuildingsSection fun blds =>
    pBind parseNoiseSection fun chs => pPure (Map.mk seed ores sts blds chs))
    (co_packI32 hseed) t9
  have t11 : ConsumesOk (parseBody tags)
      (seedB ++ ((oresN ++ oresB) ++ ((stN ++ stB) ++ ((bldN ++ bldB) ++
        ((csB ++ (nzN ++ [])) ++ []))))) (decodedOf m) := t10
  have t12 : ConsumesOk ((fun s => if s = sigBytes then parseBody tags else pFail .badSignature)
      sigBytes)
      (seedB ++ ((oresN ++ oresB) ++ ((stN ++ stB) ++ ((bldN ++ bldB) ++
        ((csB ++ (nzN ++ [])) ++ []))))) (decodedOf m) := by
    have he : ((if sigBytes = sigBytes then parseBody tags else pFail .badSignature) : Parser Map)
        = parseBody tags := if_pos rfl
    show ConsumesOk (if sigBytes = sigBytes then parseBody tags else pFail .badSignature) _ _
    rw [he]
    exact t11
  have t13 := co_bindf (fun s => if s = sigBytes then parseBody tags else pFail .badSignature)
    (co_readBytes (show sigBytes.length = 4 from rfl)) t12
  have t14 : ConsumesOk (parseMap tags)
      (sigBytes ++ (seedB ++ ((oresN ++ oresB) ++ ((stN ++ stB) ++ ((bldN ++ bldB) ++
        ((csB ++ (nzN ++ [])) ++ [])))))) (decodedOf m) := t13
  refine co_congr t14 ?_
  rw [hbs, hnzB0]
  simp [List.append_assoc]

theorem ebind_ok_simp {α β : Type} (a : α) (f : α → Except Err β) :
    ebind (Except.ok a) f = f a := rfl

/-- C1: the claimed round-trip identity breaks on the code.  For the valid
world wNoise1 (CHUNK_SIZE 1, one bare-pair-keyed noise chunk with a 1 by 1
grid) the saver already fails with TypeError: its sample loop iterates the
first grid row and then tries to iterate each float sample.  No byte stream
is produced, so decode of encode cannot return the world. -/
theorem c1_roundtrip_fails_on_noise : save_map 1 wNoise1 = .error Err.typeError := by decide

/-- C2: the loader does not mirror the writer in the noise section.  On the
stream sRowCount, laid out exactly as the writer emits a noise chunk (coords,
then the 32-bit row count 1, then the single sample word 9), the loader reads
the sample grid immediately after the coordinates: the row-count bytes are
consumed as the float sample (grid value 1), and the actual sample bytes
[9, 0, 0, 0] are left unread. -/
theorem c2_rowcount_not_read :
    parseMap [] sRowCount =
      .ok (⟨7, [], [], [], [(NoiseKey.point ⟨0, 0⟩, [[1]])]⟩, [9, 0, 0, 0]) := by decide

/-- C3: a stream whose first four bytes differ from the magic signature is
rejected with the format error, before any other field is read and without
any world state being returned. -/
theorem c3_signature_rejected {tags : List Nat} {bs : List Nat}
    (h4 : 4 ≤ bs.length) (hne : bs.take 4 ≠ sigBytes) :
    load_map tags bs = .error Err.badSignature := by
  have hr : readBytes 4 bs = .ok (bs.take 4, bs.drop 4) := by
    unfold readBytes; rw [if_pos h4]
  have hp : parseMap tags bs = .error Err.badSignature := by
    unfold parseMap
    rw [pBind_step hr]
    show (if bs.take 4 = sigBytes then parseBody tags else pFail Err.badSignature) (bs.drop 4) = _
    rw [if_neg hne]
    rfl
  unfold load_map
  rw [hp]

theorem c3_signature_rejected_witness :
    load_map [] [1, 2, 3, 4, 5] = .error Err.badSignature :=
  c3_signature_rejected (by decide) (by decide)

/-- C5: truncating the bytes of a saved valid world at any byte boundary
strictly before the end makes the loader fail with an error; it never returns
a partially populated world. -/
theorem c5_truncation_fails {tags : List Nat} {cs : Int} {m : Map} {bs : List Nat} {k : Nat}
    (hwf : wf tags cs m) (hok : save_map cs m = .ok bs) (hk : k < bs.length) :
    ∃ e, load_map tags (bs.take k) = .error e := by
  obtain ⟨e, he⟩ := (save_ok_consumes hwf hok).2 k hk
  refine ⟨e, ?_⟩
  unfold load_map
  rw [he]

theorem c5_truncation_fails_witness :
    ∃ e, load_map [] (bsEmpty01.take 27) = .error e :=
  @c5_truncation_fails [] 1 (mEmpty 0) bsEmpty01 27 (by simp [wf, mEmpty]) (by decide) (by decide)

/-- C6: an empty world saves to exactly 28 bytes: 4 signature bytes, 4 seed
bytes, the four zero counts of the ore, structure, building and noise
sections, and the CHUNK_SIZE prefix of the noise section; loading those bytes
returns the empty world with the same seed. -/
theorem c6_empty_world (tags : List Nat) (seed cs : Int)
    (h1 : -2147483648 ≤ seed) (h2 : seed ≤ 2147483647)
    (h3 : -2147483648 ≤ cs) (h4 : cs ≤ 2147483647) :
    ∃ bs, save_map cs (mEmpty seed) = .ok bs ∧
      bs.length = 4 + 4 + (4 + 4 + 4 + (4 + 4)) ∧
      load_map tags bs = .ok (mEmpty seed) := by
  have hseed : packI32 seed = .ok (le4 (seed % 4294967296).toNat) := by
    unfold packI32; rw [if_pos ⟨h1, h2⟩]
  have hcs : packI32 cs = .ok (le4 (cs % 4294967296).toNat) := by
    unfold packI32; rw [if_pos ⟨h3, h4⟩]
  have hzero : packI32 ((0 : Nat) : Int) = .ok (le4 0) := by decide
  have hok : save_map cs (mEmpty seed) =
      .ok (sigBytes ++ le4 (seed % 4294967296).toNat ++ le4 0 ++ le4 0 ++ le4 0 ++
        le4 (cs % 4294967296).toNat ++ le4 0) := by
    simp only [save_map, mEmpty, List.length_nil, Nat.cast_zero, encList, ebind_ok_simp,
      hseed, hcs]
    have hz : packI32 (0 : Int) = .ok (le4 0) := hzero
    simp only [hz, ebind_ok_simp]
    simp
  refine ⟨_, hok, ?_, ?_⟩
  · simp [sigBytes, le4]
  · have hwfE : wf tags cs (mEmpty seed) := by simp [wf, mEmpty]
    have hcons := (save_ok_consumes hwfE hok).1 []
    rw [List.append_nil] at hcons
    unfold load_map
    rw [hcons]
    rfl

theorem c6_empty_world_witness :
    ∃ bs, save_map 16 (mEmpty 5) = .ok bs ∧
      bs.length = 4 + 4 + (4 + 4 + 4 + (4 + 4)) ∧
      load_map [] bs = .ok (mEmpty 5) :=
  c6_empty_world [] 5 16 (by decide) (by decide) (by decide) (by decide)

/-- C7: the claimed per-chunk noise layout (coords, row count, then
CHUNK_SIZE times CHUNK_SIZE samples in row-major order) is not what the
writer does.  On a valid chunk with a 1 by 1 grid for CHUNK_SIZE 1, the
chunk writer fails with TypeError instead of emitting the samples, because
its loop iterates the first row of the grid and then iterates each float. -/
theorem c7_noise_chunk_write_fails :
    encNoiseChunk (NoiseKey.pair 2 3, [[7]]) = .error Err.typeError := by decide

theorem pPure_ok_inv {α : Type} {a : α} {bs : List Nat} {r : α × List Nat}
    (h : pPure a bs = .ok r) : r = (a, bs) := by
  unfold pPure at h
  injection h with h
  exact h.symm

theorem co_readPoint_len {c : List Nat} (h : c.length = 8) :
    ConsumesOk readPoint c (Point.mk (toI32 (deLE4 (c.take 4))) (toI32 (deLE4 (c.drop 4)))) := by
  have h1 : (c.take 4).length = 4 := List.length_take_of_le (by omega)
  have h2 : (c.drop 4).length = 4 := by rw [List.length_drop]; omega
  have s1 : ConsumesOk ((fun py => pPure (Point.mk (toI32 (deLE4 (c.take 4))) py))
      (toI32 (deLE4 (c.drop 4)))) []
      (Point.mk (toI32 (deLE4 (c.take 4))) (toI32 (deLE4 (c.drop 4)))) := co_pure _
  have s2 := co_bindf (fun py => pPure (Point.mk (toI32 (deLE4 (c.take 4))) py))
    (co_readI32 h2) s1
  have s3 : ConsumesOk ((fun px => pBind readI32 fun py => pPure (Point.mk px py))
      (toI32 (deLE4 (c.take 4)))) (c.drop 4 ++ [])
      (Point.mk (toI32 (deLE4 (c.take 4))) (toI32 (deLE4 (c.drop 4)))) := s2
  have s4 := co_bindf (fun px => pBind readI32 fun py => pPure (Point.mk px py))
    (co_readI32 h1) s3
  have s5 : ConsumesOk readPoint (c.take 4 ++ (c.drop 4 ++ []))
      (Point.mk (toI32 (deLE4 (c.take 4))) (toI32 (deLE4 (c.drop 4)))) := s4
  exact co_congr s5 (by simp)

/-- C4: wherever an ore-kind tag byte is expected, a byte outside the
recognized enumeration makes the loader fail with the tag error rather than
substituting a default kind.  First conjunct: the ore-kind loop fails
immediately whenever its next iteration meets an unrecognized tag byte.
Second conjunct: end to end, a stream whose first ore chunk announces one
kind whose tag byte is unrecognized is rejected by load_map with the tag
error, for any seed and chunk coordinates. -/
theorem c4_unknown_tag_fails {tags : List Nat} {b : Nat} (hb : b ∉ tags) :
    (∀ (n : Nat) (acc : List (Nat × List Point)) (rest : List Nat),
      readOreKinds tags (n + 1) acc (b :: rest) = .error Err.badTag) ∧
    (∀ (seedB coordB rest : List Nat), seedB.length = 4 → coordB.length = 8 →
      load_map tags (sigBytes ++ seedB ++ le4 1 ++ coordB ++ le4 1 ++ b :: rest) =
        .error Err.badTag) := by
  have hreadByte : ∀ rest : List Nat, readByte (b :: rest) = .ok (b, rest) := by
    intro rest
    unfold readByte
    rw [pBind_step (show readBytes 1 (b :: rest) = .ok ([b], rest) by
      unfold readBytes; rw [if_pos (by simp)]; rfl)]
    rfl
  have hot : ∀ rest : List Nat, readOreType tags (b :: rest) = .error Err.badTag := by
    intro rest
    unfold readOreType
    rw [pBind_step (hreadByte rest)]
    show (if b ∈ tags then pPure b else pFail Err.badTag) rest = _
    rw [if_neg hb]
    rfl
  have part1 : ∀ (n : Nat) (acc : List (Nat × List Point)) (rest : List Nat),
      readOreKinds tags (n + 1) acc (b :: rest) = .error Err.badTag := by
    intro n acc rest
    show pBind (readOreType tags) _ (b :: rest) = _
    exact pBind_err (hot rest)
  refine ⟨part1, ?_⟩
  intro seedB coordB rest hs hc
  have hone : toI32 (deLE4 (le4 1)) = 1 := by decide
  have e1 : readBytes 4 (sigBytes ++ (seedB ++ (le4 1 ++ (coordB ++ (le4 1 ++ (b :: rest))))))
      = .ok (sigBytes, seedB ++ (le4 1 ++ (coordB ++ (le4 1 ++ (b :: rest))))) :=
    (co_readBytes (show sigBytes.length = 4 from rfl)).1 _
  have e2 : readI32 (seedB ++ (le4 1 ++ (coordB ++ (le4 1 ++ (b :: rest)))))
      = .ok (toI32 (deLE4 seedB), le4 1 ++ (coordB ++ (le4 1 ++ (b :: rest)))) :=
    (co_readI32 hs).1 _
  have e3 : readI32 (le4 1 ++ (coordB ++ (le4 1 ++ (b :: rest))))
      = .ok (toI32 (deLE4 (le4 1)), coordB ++ (le4 1 ++ (b :: rest))) :=
    (co_readI32 (le4_length 1)).1 _
  have e4 : readPoint (coordB ++ (le4 1 ++ (b :: rest)))
      = .ok (Point.mk (toI32 (deLE4 (coordB.take 4))) (toI32 (deLE4 (coordB.drop 4))),
          le4 1 ++ (b :: rest)) :=
    (co_readPoint_len hc).1 _
  have e5 : readI32 (le4 1 ++ (b :: rest)) = .ok (toI32 (deLE4 (le4 1)), b :: rest) :=
    (co_readI32 (le4_length 1)).1 _
  have e6 : readOreChunks tags 1 [] (coordB ++ (le4 1 ++ (b :: rest))) = .error Err.badTag := by
    show pBind readPoint _ _ = _
    rw [pBind_step e4]
    show pBind readI32 _ _ = _
    rw [pBind_step e5]
    show pBind (readOreKinds tags (toI32 (deLE4 (le4 1))).toNat []) _ (b :: rest) = _
    rw [hone]
    exact pBind_err (part1 0 [] rest)
  have e7 : parseOresSection tags (le4 1 ++ (coordB ++ (le4 1 ++ (b :: rest))))
      = .error Err.badTag := by
    unfold parseOresSection
    rw [pBind_step e3]
    show readOreChunks tags (toI32 (deLE4 (le4 1))).toNat [] (coordB ++ (le4 1 ++ (b :: rest))) = _
    rw [hone]
    exact e6
  have e8 : parseBody tags (seedB ++ (le4 1 ++ (coordB ++ (le4 1 ++ (b :: rest)))))
      = .error Err.badTag := by
    unfold parseBody
    rw [pBind_step e2]
    show pBind (parseOresSection tags) _ _ = _
    exact pBind_err e7
  have e9 : parseMap tags (sigBytes ++ (seedB ++ (le4 1 ++ (coordB ++ (le4 1 ++ (b :: rest))))))
      = .error Err.badTag := by
    unfold parseMap
    rw [pBind_step e1]
    show (if sigBytes = sigBytes then parseBody tags else pFail Err.badSignature)
      (seedB ++ (le4 1 ++ (coordB ++ (le4 1 ++ (b :: rest))))) = _
    rw [if_pos rfl]
    exact e8
  have hassoc : sigBytes ++ seedB ++ le4 1 ++ coordB ++ le4 1 ++ b :: rest
      = sigBytes ++ (seedB ++ (le4 1 ++ (coordB ++ (le4 1 ++ (b :: rest))))) := by
    simp [List.append_assoc]
  unfold load_map
  rw [hassoc, e9]

theorem c4_unknown_tag_fails_witness :
    readOreKinds [3] 1 [] [7] = .error Err.badTag ∧
    load_map [3] (sigBytes ++ le4 0 ++ le4 1 ++ (le4 0 ++ le4 0) ++ le4 1 ++ 7 :: []) =
      .error Err.badTag := by
  have h := @c4_unknown_tag_fails [3] 7 (by decide)
  exact ⟨h.1 0 [] [], h.2 (le4 0) (le4 0 ++ le4 0) [] (by decide) (by decide)⟩

/- Decoder-side structure of the noise section. -/

theorem readRow_ok_len {n : Nat} {bs : List Nat} {r : List Nat} {rest : List Nat}
    (h : readRow n bs = .ok (r, rest)) : r.length = n := by
  induction n generalizing bs r rest with
  | zero =>
    have h2 := pPure_ok_inv h
    injection h2 with h2 h3
    rw [h2]
    rfl
  | succ n ih =>
    obtain ⟨v, rest1, h1, h⟩ := pBind_ok_inv h
    obtain ⟨r2, rest2, h2, h⟩ := pBind_ok_inv h
    have h3 := pPure_ok_inv h
    injection h3 with h3 h4
    rw [h3]
    simp [ih h2]

theorem readGrid_ok_dims {cols rows : Nat} {bs : List Nat} {g : List (List Nat)}
    {rest : List Nat} (h : readGrid cols rows bs = .ok (g, rest)) :
    g.length = rows ∧ ∀ r ∈ g, r.length = cols := by
  induction rows generalizing bs g rest with
  | zero =>
    have h2 := pPure_ok_inv h
    injection h2 with h2 h3
    rw [h2]
    exact ⟨rfl, by simp⟩
  | succ n ih =>
    obtain ⟨row, rest1, h1, h⟩ := pBind_ok_inv h
    obtain ⟨g2, rest2, h2, h⟩ := pBind_ok_inv h
    have h3 := pPure_ok_inv h
    injection h3 with h3 h4
    rw [h3]
    obtain ⟨hlen, hall⟩ := ih h2
    refine ⟨by simp [hlen], ?_⟩
    intro r hr
    rcases List.mem_cons.mp hr with hr | hr
    · rw [hr]; exact readRow_ok_len h1
    · exact hall r hr

theorem dinsert_mem {κ α : Type} [DecidableEq κ] {k : κ} {v : α} {l : List (κ × α)}
    {kv : κ × α} (h : kv ∈ dinsert k v l) : kv = (k, v) ∨ kv ∈ l := by
  induction l with
  | nil => simpa [dinsert] using h
  | cons kv2 rest ih =>
    unfold dinsert at h
    by_cases hk : kv2.1 = k
    · rw [if_pos hk] at h
      rcases List.mem_cons.mp h with h | h
      · exact Or.inl h
      · exact Or.inr (List.mem_cons_of_mem _ h)
    · rw [if_neg hk] at h
      rcases List.mem_cons.mp h with h | h
      · exact Or.inr (h ▸ List.mem_cons_self _ _)
      · rcases ih h with h | h
        · exact Or.inl h
        · exact Or.inr (List.mem_cons_of_mem _ h)

theorem readNoiseChunks_mem {cs : Int} :
    ∀ {n : Nat} {acc : List (NoiseKey × List (List Nat))} {bs : List Nat}
      {out : List (NoiseKey × List (List Nat))} {rest : List Nat},
      readNoiseChunks cs n acc bs = .ok (out, rest) →
      (∀ kv ∈ acc, GridOkKV cs kv) → ∀ kv ∈ out, GridOkKV cs kv := by
  intro n
  induction n with
  | zero =>
    intro acc bs out rest h hacc
    have h2 := pPure_ok_inv h
    injection h2 with h2 h3
    rw [h2]
    exact hacc
  | succ n ih =>
    intro acc bs out rest h hacc
    obtain ⟨cc, rest1, h1, h⟩ := pBind_ok_inv h
    obtain ⟨g, rest2, h2, h⟩ := pBind_ok_inv h
    refine ih h ?_
    intro kv hkv
    rcases dinsert_mem hkv with hkv | hkv
    · obtain ⟨hrows, hcols⟩ := readGrid_ok_dims h2
      rw [hkv]
      exact ⟨⟨cc, rfl⟩, hrows, hcols⟩
    · exact hacc kv hkv

theorem readBytes_ok_inv {n : Nat} {bs : List Nat} {r : List Nat × List Nat}
    (h : readBytes n bs = .ok r) : r = (bs.take n, bs.drop n) := by
  unfold readBytes at h
  split at h
  · injection h with h
    exact h.symm
  · simp at h

theorem readI32_ok_inv {bs : List Nat} {v : Int} {rest : List Nat}
    (h : readI32 bs = .ok (v, rest)) : v = toI32 (deLE4 (bs.take 4)) := by
  unfold readI32 at h
  obtain ⟨b4, r4, hb4, h⟩ := pBind_ok_inv h
  have h5 := pPure_ok_inv h
  injection h5 with h5 h6
  have h7 := readBytes_ok_inv hb4
  injection h7 with h7 h8
  rw [h5, h7]

theorem parseNoiseSection_mem {bs : List Nat} {out : List (NoiseKey × List (List Nat))}
    {rest : List Nat} (h : parseNoiseSection bs = .ok (out, rest)) :
    ∀ kv ∈ out, GridOkKV (toI32 (deLE4 (bs.take 4))) kv := by
  unfold parseNoiseSection at h
  obtain ⟨cs, rest1, h1, h⟩ := pBind_ok_inv h
  obtain ⟨n, rest2, h2, h⟩ := pBind_ok_inv h
  have hcs := readI32_ok_inv h1
  rw [← hcs]
  exact readNoiseChunks_mem h (by intro kv hkv; simp at hkv)

/-- C8: the loader treats the chunk-size value freshly read at the start of
the noise section as the authoritative grid bound: every noise grid of a
successfully parsed noise section has exactly that many rows and that many
samples per row, where the bound is the 32-bit integer decoded from the first
four bytes of the section. -/
theorem c8_stream_chunk_size_is_authoritative {bs : List Nat}
    {out : List (NoiseKey × List (List Nat))} {rest : List Nat}
    (h : parseNoiseSection bs = .ok (out, rest)) :
    ∀ kv ∈ out, kv.2.length = (toI32 (deLE4 (bs.take 4))).toNat ∧
      ∀ r ∈ kv.2, r.length = (toI32 (deLE4 (bs.take 4))).toNat := by
  intro kv hkv
  exact (parseNoiseSection_mem h kv hkv).2

theorem c8_stream_chunk_size_witness :
    (NoiseKey.point (Point.mk 0 0), ([[9]] : List (List Nat))).2.length =
        (toI32 (deLE4 (sNoiseOnly.take 4))).toNat ∧
      ∀ r ∈ (NoiseKey.point (Point.mk 0 0), ([[9]] : List (List Nat))).2,
        r.length = (toI32 (deLE4 (sNoiseOnly.take 4))).toNat :=
  c8_stream_chunk_size_is_authoritative
    (show parseNoiseSection sNoiseOnly = .ok ([(NoiseKey.point (Point.mk 0 0), [[9]])], [])
      by decide)
    (NoiseKey.point (Point.mk 0 0), [[9]]) (by decide)

/-- C9 counterexample: the claim that a successfully decoded world keeps its
noise chunks keyed by bare integer pairs is false: loading the valid stream
sOneNoise succeeds, and the rebuilt world fails the all-keys-are-pairs
check (its single key is a structured Point). -/
theorem c9_decoded_keys_not_pairs :
    Except.map keysArePairs (load_map [] sOneNoise) = .ok false := by decide

/-- C9 amended: the saver consumes noise keys as bare pairs (subscripting a
pair key succeeds, subscripting a structured Point key raises TypeError), but
the world returned by a successful decode keys every noise chunk by a
structured Point built from the two coordinates, not by a bare pair. -/
theorem c9_amended_keys {tags : List Nat} {bs : List Nat} {m : Map} {rest : List Nat}
    (h : parseMap tags bs = .ok (m, rest)) :
    (∀ kv ∈ m.perlinChunks, ∃ p, kv.1 = NoiseKey.point p) ∧
    (∀ a b : Int, NoiseKey.item (NoiseKey.pair a b) = .ok (a, b)) ∧
    (∀ p : Point, NoiseKey.item (NoiseKey.point p) = .error Err.typeError) := by
  refine ⟨?_, fun a b => rfl, fun p => rfl⟩
  unfold parseMap at h
  obtain ⟨s, rest1, h1, h⟩ := pBind_ok_inv h
  by_cases hs : s = sigBytes
  · rw [if_pos hs] at h
    unfold parseBody at h
    obtain ⟨seed, r2, h2, h⟩ := pBind_ok_inv h
    obtain ⟨ores, r3, h3, h⟩ := pBind_ok_inv h
    obtain ⟨sts, r4, h4, h⟩ := pBind_ok_inv h
    obtain ⟨blds, r5, h5, h⟩ := pBind_ok_inv h
    obtain ⟨chs, r6, h6, h⟩ := pBind_ok_inv h
    have h7 := pPure_ok_inv h
    injection h7 with h7 h8
    rw [h7]
    intro kv hkv
    exact (parseNoiseSection_mem h6 kv hkv).1
  · rw [if_neg hs] at h
    simp [pFail] at h

theorem c9_amended_keys_witness :
    (∀ kv ∈ mOneNoise.perlinChunks, ∃ p, kv.1 = NoiseKey.point p) ∧
    (∀ a b : Int, NoiseKey.item (NoiseKey.pair a b) = .ok (a, b)) ∧
    (∀ p : Point, NoiseKey.item (NoiseKey.point p) = .error Err.typeError) :=
  c9_amended_keys (show parseMap [] sOneNoise = .ok (mOneNoise, []) by decide)

/- Every 32-bit integer field a successful save packed was in range. -/

theorem packI32_inR {x : Int} {c : List Nat} (h : packI32 x = .ok c) : inR x = true := by
  obtain ⟨_, h1, h2⟩ := packI32_ok h
  simp [inR, h1, h2]

theorem encPoint_inR {p : Point} {c : List Nat} (h : encPoint p = .ok c) : pointR p = true := by
  unfold encPoint at h
  obtain ⟨b1, h1, h⟩ := ebind_ok h
  obtain ⟨b2, h2, h⟩ := ebind_ok h
  simp [pointR, packI32_inR h1, packI32_inR h2]

theorem encList_all {α : Type} (g : α → Bool) {f : α → Except Err (List Nat)}
    (hfg : ∀ a c, f a = .ok c → g a = true) :
    ∀ {l : List α} {c : List Nat}, encList f l = .ok c → l.all g = true := by
  intro l
  induction l with
  | nil => intro c _; rfl
  | cons a rest ih =>
    intro c h
    obtain ⟨c1, c2, h1, h2, _⟩ := encList_cons_ok h
    simp [List.all_cons, hfg a c1 h1, ih h2]

theorem encOreKind_fields {kp : Nat × List Point} {c : List Nat}
    (h : encOreKind kp = .ok c) : (lenR kp.2.length && kp.2.all pointR) = true := by
  unfold encOreKind at h
  obtain ⟨tb, h1, h⟩ := ebind_ok h
  obtain ⟨lb, h2, h⟩ := ebind_ok h
  obtain ⟨pb, h3, h⟩ := ebind_ok h
  have hlen : lenR kp.2.length = true := packI32_inR h2
  have hall : kp.2.all pointR = true := encList_all pointR (fun a c hc => encPoint_inR hc) h3
  simp [hlen, hall]

theorem encOreChunk_fields {ck : Point × List (Nat × List Point)} {c : List Nat}
    (h : encOreChunk ck = .ok c) :
    (pointR ck.1 && lenR ck.2.length &&
      ck.2.all fun kp => lenR kp.2.length && kp.2.all pointR) = true := by
  unfold encOreChunk at h
  obtain ⟨cb, h1, h⟩ := ebind_ok h
  obtain ⟨lb, h2, h⟩ := ebind_ok h
  obtain ⟨kb, h3, h⟩ := ebind_ok h
  have hall := encList_all (fun kp => lenR kp.2.length && kp.2.all pointR)
    (fun a c hc => encOreKind_fields hc) h3
  have hl : lenR ck.2.length = true := packI32_inR h2
  simp [encPoint_inR h1, hl, hall]

theorem encStructure_fields {s : Structure} {c : List Nat} (h : encStructure s = .ok c) :
    (inR s.structure_type && pointR s.position &&
      lenR s.points.length && s.points.all pointR) = true := by
  unfold encStructure at h
  obtain ⟨tb, h1, h⟩ := ebind_ok h
  obtain ⟨pb, h2, h⟩ := ebind_ok h
  obtain ⟨lb, h3, h⟩ := ebind_ok h
  obtain ⟨fb, h4, h⟩ := ebind_ok h
  have hall := encList_all pointR (fun a c hc => encPoint_inR hc) h4
  have hl : lenR s.points.length = true := packI32_inR h3
  simp [packI32_inR h1, encPoint_inR h2, hl, hall]

theorem encStructChunk_fields {ck : Point × List Structure} {c : List Nat}
    (h : encStructChunk ck = .ok c) :
    (pointR ck.1 && lenR ck.2.length &&
      ck.2.all fun s => inR s.structure_type && pointR s.position &&
        lenR s.points.length && s.points.all pointR) = true := by
  unfold encStructChunk at h
  obtain ⟨cb, h1, h⟩ := ebind_ok h
  obtain ⟨lb, h2, h⟩ := ebind_ok h
  obtain ⟨sb, h3, h⟩ := ebind_ok h
  have hall := encList_all (fun s => inR s.structure_type && pointR s.position &&
    lenR s.points.length && s.points.all pointR)
    (fun a c hc => encStructure_fields hc) h3
  have hl : lenR ck.2.length = true := packI32_inR h2
  simp [encPoint_inR h1, hl, hall]

theorem encBuilding_fields {b : Building} {c : List Nat} (h : encBuilding b = .ok c) :
    (pointR b.position && lenR b.points.length && b.points.all pointR) = true := by
  unfold encBuilding at h
  obtain ⟨pb, h1, h⟩ := ebind_ok h
  obtain ⟨lb, h2, h⟩ := ebind_ok h
  obtain ⟨fb, h3, h⟩ := ebind_ok h
  have hall := encList_all pointR (fun a c hc => encPoint_inR hc) h3
  have hl : lenR b.points.length = true := packI32_inR h2
  simp [encPoint_inR h1, hl, hall]

theorem encNoiseChunk_fields {ck : NoiseKey × List (List Nat)} {c : List Nat}
    (h : encNoiseChunk ck = .ok c) : (keyR ck.1 && lenR ck.2.length) = true := by
  unfold encNoiseChunk at h
  obtain ⟨xy, hxy, h⟩ := ebind_ok h
  obtain ⟨b1, h1, h⟩ := ebind_ok h
  obtain ⟨b2, h2, h⟩ := ebind_ok h
  obtain ⟨lb, h3, h⟩ := ebind_ok h
  have hlen : lenR ck.2.length = true := packI32_inR h3
  cases hck : ck.1 with
  | pair a b =>
    rw [hck] at hxy
    unfold NoiseKey.item at hxy
    injection hxy with hxy
    rw [← hxy] at h1 h2
    have ha : inR a = true := packI32_inR h1
    have hb : inR b = true := packI32_inR h2
    simp [keyR, hlen, ha, hb]
  | point p =>
    rw [hck] at hxy
    simp [NoiseKey.item] at hxy

theorem save_ok_fields {cs : Int} {m : Map} {bs : List Nat} (h : save_map cs m = .ok bs) :
    intFieldsInRange m = true := by
  obtain ⟨seedB, oresN, oresB, stN, stB, bldN, bldB, csB, nzN, nzB,
    hseed, horesN, horesB, hstN, hstB, hbldN, hbldB, hcs, hnzN, hnzB, _⟩ := save_map_ok h
  have f1 : inR m.seed = true := packI32_inR hseed
  have f2 : lenR m.ores.length = true := packI32_inR horesN
  have f3 := encList_all (fun ck => pointR ck.1 && lenR ck.2.length &&
    ck.2.all fun kp => lenR kp.2.length && kp.2.all pointR)
    (fun a c hc => encOreChunk_fields hc) horesB
  have f4 : lenR m.structures.length = true := packI32_inR hstN
  have f5 := encList_all (fun ck => pointR ck.1 && lenR ck.2.length &&
    ck.2.all fun s => inR s.structure_type && pointR s.position &&
      lenR s.points.length && s.points.all pointR)
    (fun a c hc => encStructChunk_fields hc) hstB
  have f6 : lenR m.buildings.length = true := packI32_inR hbldN
  have f7 := encList_all (fun b => pointR b.position && lenR b.points.length &&
    b.points.all pointR) (fun a c hc => encBuilding_fields hc) hbldB
  have f8 : lenR m.perlinChunks.length = true := packI32_inR hnzN
  have f9 := encList_all (fun ck => keyR ck.1 && lenR ck.2.length)
    (fun a c hc => encNoiseChunk_fields hc) hnzB
  simp [intFieldsInRange, f1, f2, f3, f4, f5, f6, f7, f8, f9]

/- Byte lengths of successful encodings. -/

theorem packB_length {b : Nat} {c : List Nat} (h : packB b = .ok c) : c.length = 1 := by
  rw [(packB_ok h).1]
  rfl

theorem map_const_sum {α : Type} (l : List α) (k : Nat) :
    (l.map fun _ => k).sum = k * l.length := by
  induction l with
  | nil => simp
  | cons a rest ih => simp [ih]; ring

theorem encList_length {α : Type} (g : α → Nat) {f : α → Except Err (List Nat)}
    (hfg : ∀ a c, f a = .ok c → c.length = g a) :
    ∀ {l : List α} {c : List Nat}, encList f l = .ok c → c.length = (l.map g).sum := by
  intro l
  induction l with
  | nil =>
    intro c h
    rw [encList_nil_ok h]
    rfl
  | cons a rest ih =>
    intro c h
    obtain ⟨c1, c2, h1, h2, rfl⟩ := encList_cons_ok h
    simp [hfg a c1 h1, ih h2]

theorem encPoint_length {p : Point} {c : List Nat} (h : encPoint p = .ok c) : c.length = 8 := by
  unfold encPoint at h
  obtain ⟨b1, h1, h⟩ := ebind_ok h
  obtain ⟨b2, h2, h⟩ := ebind_ok h
  injection h with h
  rw [← h]
  simp [packI32_length h1, packI32_length h2]

theorem encPts_length {l : List Point} {c : List Nat} (h : encList encPoint l = .ok c) :
    c.length = encPtsLen l := by
  have := encList_length (fun _ => 8) (fun a c hc => encPoint_length hc) h
  rw [this, map_const_sum]
  rfl

theorem encOreKind_length {kp : Nat × List Point} {c : List Nat}
    (h : encOreKind kp = .ok c) : c.length = encKindLen kp := by
  unfold encOreKind at h
  obtain ⟨tb, h1, h⟩ := ebind_ok h
  obtain ⟨lb, h2, h⟩ := ebind_ok h
  obtain ⟨pb, h3, h⟩ := ebind_ok h
  injection h with h
  rw [← h]
  simp [encKindLen, packB_length h1, packI32_length h2, encPts_length h3]
  omega

theorem encOreChunk_length {ck : Point × List (Nat × List Point)} {c : List Nat}
    (h : encOreChunk ck = .ok c) : c.length = encOreChunkLen ck := by
  unfold encOreChunk at h
  obtain ⟨cb, h1, h⟩ := ebind_ok h
  obtain ⟨lb, h2, h⟩ := ebind_ok h
  obtain ⟨kb, h3, h⟩ := ebind_ok h
  injection h with h
  rw [← h]
  have := encList_length encKindLen (fun a c hc => encOreKind_length hc) h3
  simp [encOreChunkLen, encPoint_length h1, packI32_length h2, this]
  omega

theorem encStructure_length {s : Structure} {c : List Nat} (h : encStructure s = .ok c) :
    c.length = encStructureLen s := by
  unfold encStructure at h
  obtain ⟨tb, h1, h⟩ := ebind_ok h
  obtain ⟨pb, h2, h⟩ := ebind_ok h
  obtain ⟨lb, h3, h⟩ := ebind_ok h
  obtain ⟨fb, h4, h⟩ := ebind_ok h
  injection h with h
  rw [← h]
  simp [encStructureLen, packI32_length h1, encPoint_length h2, packI32_length h3,
    encPts_length h4]
  omega

theorem encStructChunk_length {ck : Point × List Structure} {c : List Nat}
    (h : encStructChunk ck = .ok c) : c.length = encStructChunkLen ck := by
  unfold encStructChunk at h
  obtain ⟨cb, h1, h⟩ := ebind_ok h
  obtain ⟨lb, h2, h⟩ := ebind_ok h
  obtain ⟨sb, h3, h⟩ := ebind_ok h
  injection h with h
  rw [← h]
  have := encList_length encStructureLen (fun a c hc => encStructure_length hc) h3
  simp [encStructChunkLen, encPoint_length h1, packI32_length h2, this]
  omega

theorem encBuilding_length {b : Building} {c : List Nat} (h : encBuilding b = .ok c) :
    c.length = encBuildingLen b := by
  unfold encBuilding at h
  obtain ⟨pb, h1, h⟩ := ebind_ok h
  obtain ⟨lb, h2, h⟩ := ebind_ok h
  obtain ⟨fb, h3, h⟩ := ebind_ok h
  injection h with h
  rw [← h]
  simp [encBuildingLen, encPoint_length h1, packI32_length h2, encPts_length h3]
  omega

theorem encNoiseChunk_length {ck : NoiseKey × List (List Nat)} {c : List Nat}
    (h : encNoiseChunk ck = .ok c) : c.length = encNoiseChunkLen ck := by
  unfold encNoiseChunk at h
  obtain ⟨xy, hxy, h⟩ := ebind_ok h
  obtain ⟨b1, h1, h⟩ := ebind_ok h
  obtain ⟨b2, h2, h⟩ := ebind_ok h
  obtain ⟨lb, h3, h⟩ := ebind_ok h
  obtain ⟨sb, h4, h⟩ := ebind_ok h
  injection h with h
  rw [← h]
  obtain ⟨hsb, _⟩ := encNoiseSamples_ok h4
  simp [encNoiseChunkLen, packI32_length h1, packI32_length h2, packI32_length h3, hsb]

theorem save_length {cs : Int} {m : Map} {bs : List Nat} (h : save_map cs m = .ok bs) :
    bs.length = encLen m := by
  obtain ⟨seedB, oresN, oresB, stN, stB, bldN, bldB, csB, nzN, nzB,
    hseed, horesN, horesB, hstN, hstB, hbldN, hbldB, hcs, hnzN, hnzB, hbs⟩ := save_map_ok h
  have l3 := encList_length encOreChunkLen (fun a c hc => encOreChunk_length hc) horesB
  have l5 := encList_length encStructChunkLen (fun a c hc => encStructChunk_length hc) hstB
  have l7 := encList_length encBuildingLen (fun a c hc => encBuilding_length hc) hbldB
  have l9 := encList_length encNoiseChunkLen (fun a c hc => encNoiseChunk_length hc) hnzB
  rw [hbs]
  simp [encLen, packI32_length hseed, packI32_length horesN, l3, packI32_length hstN, l5,
    packI32_length hbldN, l7, packI32_length hcs, packI32_length hnzN, l9, sigBytes]
  omega

/-- C10 counterexample: every listed integer field of wAllInRange lies in the
signed 32-bit range, yet the saver fails with TypeError on its noise chunk,
so there is no output in which those fields could each occupy 4 bytes. -/
theorem c10_in_range_yet_no_output :
    intFieldsInRange wAllInRange = true ∧ save_map 1 wAllInRange = .error Err.typeError :=
  ⟨by decide, by decide⟩

/-- C10 amended: the saver fails with an error whenever any listed integer
field (seed, collection counts, chunk coordinates, point coordinates,
structure-type ids) lies outside the signed 32-bit range; and for every world
the saver actually serializes, each such field occupies exactly 4 bytes in
the output: the total length is the fixed-layout sum of 4 bytes per integer
field, 1 byte per ore tag and 4 bytes per emitted sample. -/
theorem c10_amended_pack_behaviour (cs : Int) (m : Map) :
    (intFieldsInRange m = false → ∃ e, save_map cs m = .error e) ∧
    (∀ bs, save_map cs m = .ok bs → bs.length = encLen m) := by
  constructor
  · intro hf
    cases hsv : save_map cs m with
    | error e => exact ⟨e, rfl⟩
    | ok bs =>
      rw [save_ok_fields hsv] at hf
      exact absurd hf (by decide)
  · intro bs h
    exact save_length h

theorem c10_amended_pack_behaviour_witness :
    (∃ e, save_map 1 wSeedBig = .error e) ∧ bsEmpty01.length = encLen (mEmpty 0) :=
  ⟨(c10_amended_pack_behaviour 1 wSeedBig).1 (by decide),
   (c10_amended_pack_behaviour 1 (mEmpty 0)).2 bsEmpty01 (by decide)⟩

end Saver
